import Mathlib

/-!
Verification of the Cascade changepoint-detection pipeline
(src/detect/bocd.py) against its specification.

The repository's own code (the `BOCPDDetector` wrapper and the Dagster ops
`load_daily_indices`, `detect_changepoints`, `send_alert`) is embedded
directly from src/detect/bocd.py.  The Run-Length Posterior Engine itself
(`BOCD` from the third-party `bayesian_changepoint_detection` package) is
not part of src/, so it is modelled from the specification (sections 4.1 to
4.3): a per-step recursive update combining predictive likelihood, hazard,
and the prior posterior, normalised at every step, with an underflow guard
on the total unnormalised mass.

Floating-point arithmetic is idealised as exact rational arithmetic (ℚ).
The predictive model is kept as an explicit parameter (the spec calls it a
pluggable family); theorems that need it assume only that predictive
densities are strictly positive, which holds for the default Student-t
family of the spec.
-/

variable {σ : Type}

/-- Failure kinds surfaced by the detection core.  The spec (section 7)
requires a distinct failure kind for normalisation underflow. -/
inductive DetectError : Type where
  | numericalUnderflow : DetectError
deriving DecidableEq

/-- Modelled from the spec: the pluggable Predictive Model family of
section 4.1.  It is a prior state (fresh run-length-0 hypothesis), a
predictive density for an observation given sufficient statistics, and a
closed-form sufficient-statistics update.  The default Gaussian /
Student-t instance of the spec is one member of this family; theorems
below assume of the density only what that instance satisfies
(strict positivity). -/
structure PredictiveModel (σ : Type) : Type where
  prior : σ
  density : σ → ℚ → ℚ
  updateStats : σ → ℚ → σ

/-- Modelled from the spec: the state of the Run-Length Posterior Engine
(section 4.3): the run-length posterior at the current step (index r holds
the mass of run length r) together with one sufficient-statistics record
per active run-length hypothesis. -/
structure EngineState (σ : Type) : Type where
  posterior : List ℚ
  stats : List σ
deriving DecidableEq

/-- Modelled from the spec: the engine's initial state at t = 0, a point
mass at run length 0 with one hypothesis initialised from the prior. -/
def EngineState.init (m : PredictiveModel σ) : EngineState σ :=
  ⟨[1], [m.prior]⟩

/-- Modelled from the spec: step 1 of the per-step transition, the mass of
each hypothesis weighted by its predictive density for the observation,
posterior[r] * density(x | stats r). -/
def weightedDensities (m : PredictiveModel σ) (x : ℚ) (s : EngineState σ) : List ℚ :=
  List.zipWith (fun p st => p * m.density st x) s.posterior s.stats

/-- Modelled from the spec: step 2, the unnormalised growth masses
posterior[r] * density * (1 - hazard), one per surviving hypothesis. -/
def growthMasses (m : PredictiveModel σ) (hz x : ℚ) (s : EngineState σ) : List ℚ :=
  (weightedDensities m x s).map (fun w => w * (1 - hz))

/-- Modelled from the spec: step 3, the unnormalised changepoint mass, the
sum over all hypotheses of posterior[r] * density * hazard. -/
def changepointMass (m : PredictiveModel σ) (hz x : ℚ) (s : EngineState σ) : ℚ :=
  ((weightedDensities m x s).map (fun w => w * hz)).sum

/-- Modelled from the spec: step 4, the unnormalised posterior at the next
step, the new run-length-0 mass consed onto the shifted growth masses. -/
def unnormalizedPosterior (m : PredictiveModel σ) (hz x : ℚ) (s : EngineState σ) : List ℚ :=
  changepointMass m hz x s :: growthMasses m hz x s

/-- Modelled from the spec: the total unnormalised posterior mass that
step 5 normalises by and checks against the underflow epsilon. -/
def totalMass (m : PredictiveModel σ) (hz x : ℚ) (s : EngineState σ) : ℚ :=
  (unnormalizedPosterior m hz x s).sum

/-- Modelled from the spec: one full transition of the Run-Length Posterior
Engine (section 4.3, steps 1-6) at constant hazard rate hz, with the
underflow guard of step 5: when the total unnormalised mass is at most the
epsilon, the distinct numerical-underflow failure is reported instead of a
normalised posterior.  The new run-length-0 hypothesis restarts from the
prior; every surviving hypothesis absorbs the observation (step 6). -/
def engineStep (m : PredictiveModel σ) (hz ε x : ℚ) (s : EngineState σ) :
    Except DetectError (EngineState σ) :=
  if totalMass m hz x s ≤ ε then
    .error .numericalUnderflow
  else
    .ok ⟨(unnormalizedPosterior m hz x s).map (fun w => w / totalMass m hz x s),
         m.prior :: s.stats.map (fun st => m.updateStats st x)⟩

/-- The BOCPDDetector class of src/detect/bocd.py (lines 16-27): it stores
the hazard configuration (the expected run length between changepoints,
default 250 in the source), the wrapped engine, and the accumulated
posterior history.  The engine runs at constant hazard rate 1/hazard, the
spec's default geometric prior. -/
structure BOCPDDetector (σ : Type) : Type where
  hazard : ℚ
  engine : EngineState σ
  posterior_history : List (List ℚ)
deriving DecidableEq

/-- BOCPDDetector.__init__ (src/detect/bocd.py lines 17-26): a fresh
detector with the given hazard, a fresh engine, and empty history. -/
def BOCPDDetector.init (m : PredictiveModel σ) (lam : ℚ) : BOCPDDetector σ :=
  ⟨lam, EngineState.init m, []⟩

/-- The method names defined on the BOCPDDetector class in
src/detect/bocd.py (lines 16-53).  The class body declares exactly the
constructor and update; in particular it declares no other public
operation. -/
def bocpdDetectorMethods : List String :=
  ["__init__", "update"]

/-- BOCPDDetector.update on an array argument (src/detect/bocd.py lines
28-53): every value of the array is fed through the engine in order, then
the current (normalised) posterior is read once, appended once to the
history, and its mass at run length 0 is returned. -/
def BOCPDDetector.updateArr (m : PredictiveModel σ) (ε : ℚ) (xs : List ℚ)
    (d : BOCPDDetector σ) : Except DetectError (ℚ × BOCPDDetector σ) :=
  match xs.foldlM (fun s x => engineStep m (1 / d.hazard) ε x s) d.engine with
  | .error e => .error e
  | .ok eng =>
      .ok (eng.posterior.headD 0,
           ⟨d.hazard, eng, d.posterior_history ++ [eng.posterior]⟩)

/-- BOCPDDetector.update on a scalar argument (src/detect/bocd.py lines
38-39): a scalar is wrapped into a one-element array and processed by the
array path. -/
def BOCPDDetector.update (m : PredictiveModel σ) (ε x : ℚ)
    (d : BOCPDDetector σ) : Except DetectError (ℚ × BOCPDDetector σ) :=
  BOCPDDetector.updateArr m ε [x] d

/-- Repeated scalar update calls, one per observation, collecting each
returned changepoint probability.  This is the calling pattern of
detect_changepoints (src/detect/bocd.py lines 113-114): for val in x:
p_cp = detector.update(val). -/
def BOCPDDetector.updateSeq (m : PredictiveModel σ) (ε : ℚ) :
    List ℚ → BOCPDDetector σ → Except DetectError (List ℚ × BOCPDDetector σ)
  | [], d => .ok ([], d)
  | x :: xs, d =>
      match BOCPDDetector.update m ε x d with
      | .error e => .error e
      | .ok (p, d₁) =>
          match BOCPDDetector.updateSeq m ε xs d₁ with
          | .error e => .error e
          | .ok (ps, d₂) => .ok (p :: ps, d₂)

/-- The four monitored indices (columns of the daily_index table). -/
inductive IndexName : Type where
  | capability : IndexName
  | attention : IndexName
  | market : IndexName
  | regulatory : IndexName
deriving DecidableEq

/-- One row of the daily_index table: a date (modelled as an ordinal day
number) and the four index readings; a missing reading (NaN in the source)
is modelled as none. -/
structure Row : Type where
  date : ℕ
  capability : Option ℚ
  attention : Option ℚ
  market : Option ℚ
  regulatory : Option ℚ
deriving DecidableEq

/-- Column access df[index_name] for one row. -/
def Row.get (r : Row) : IndexName → Option ℚ
  | .capability => r.capability
  | .attention => r.attention
  | .market => r.market
  | .regulatory => r.regulatory

/-- The series fed to a detector for one index: the column values of the
given rows with missing (NaN) entries removed, in row order
(src/detect/bocd.py lines 106-109). -/
def colSeries (i : IndexName) (rows : List Row) : List ℚ :=
  rows.filterMap (fun r => r.get i)

/-- Insertion of a row into a list sorted ascending by date. -/
def insertByDate (r : Row) : List Row → List Row
  | [] => [r]
  | s :: ss => if r.date ≤ s.date then r :: s :: ss else s :: insertByDate r ss

/-- Sorting rows ascending by date: the ORDER BY date ASC of the query in
load_daily_indices. -/
def sortByDate (rows : List Row) : List Row :=
  rows.foldr insertByDate []

/-- load_daily_indices (src/detect/bocd.py lines 57-75): the query
SELECT * FROM daily_index ORDER BY date ASC LIMIT 180 returns the first
(oldest) up to 180 rows of the store in ascending date order. -/
def loadDailyIndices (store : List Row) : List Row :=
  (sortByDate store).take 180

/-- The results dictionary built by detect_changepoints (src/detect/bocd.py
lines 96-120): the date of the last loaded row, the per-index changepoint
probability where one was computed (none where the index was skipped for
lack of data), and the alert flag. -/
structure DetectResults : Type where
  date : ℕ
  capability_prob : Option ℚ
  attention_prob : Option ℚ
  market_prob : Option ℚ
  regulatory_prob : Option ℚ
  alert : Bool
deriving DecidableEq

/-- Per-index access to the results dictionary. -/
def DetectResults.prob (res : DetectResults) : IndexName → Option ℚ
  | .capability => res.capability_prob
  | .attention => res.attention_prob
  | .market => res.market_prob
  | .regulatory => res.regulatory_prob

/-- One row of the alerts table (src/detect/bocd.py lines 127-136). -/
structure AlertRecord : Type where
  date : ℕ
  capability_prob : ℚ
  attention_prob : ℚ
  market_prob : ℚ
  regulatory_prob : ℚ
  alert : Bool
deriving DecidableEq

/-- Per-index access to an alerts-table row. -/
def AlertRecord.prob (rec : AlertRecord) : IndexName → ℚ
  | .capability => rec.capability_prob
  | .attention => rec.attention_prob
  | .market => rec.market_prob
  | .regulatory => rec.regulatory_prob

/-- Detection for a single index (src/detect/bocd.py lines 103-117): if the
NaN-filtered series is empty the index is skipped (no entry in the results
dictionary, modelled as none); otherwise a fresh detector with the default
hazard 250 is updated once per value and the final returned probability is
kept.  A failure raised by any update propagates. -/
def runIndexDetection (m : PredictiveModel σ) (ε : ℚ) (xs : List ℚ) :
    Except DetectError (Option ℚ) :=
  if xs = [] then .ok none
  else
    match BOCPDDetector.updateSeq m ε xs (BOCPDDetector.init m 250) with
    | .error e => .error e
    | .ok (ps, _) => .ok (some (ps.getLastD 0))

/-- detect_changepoints (src/detect/bocd.py lines 78-153).  On an empty
frame it returns the empty dictionary (modelled as none) and inserts
nothing.  Otherwise it runs the four indices in dictionary order
(capability, attention, market, regulatory; a failure aborts the op before
any insert), sets alert to true when any computed probability is at least
1/2, and inserts one alerts-table row whose per-index values default to 0
for skipped indices (the dict.get(key, 0.0) of lines 144-147).  The
returned pair is (results dictionary, rows inserted into the alerts
table). -/
def detect_changepoints (m : PredictiveModel σ) (ε : ℚ) (rows : List Row) :
    Except DetectError (Option DetectResults × List AlertRecord) :=
  match rows with
  | [] => .ok (none, [])
  | r :: rs =>
      let date := ((r :: rs).getLastD r).date
      match runIndexDetection m ε (colSeries .capability (r :: rs)) with
      | .error e => .error e
      | .ok pc =>
          match runIndexDetection m ε (colSeries .attention (r :: rs)) with
          | .error e => .error e
          | .ok pa =>
              match runIndexDetection m ε (colSeries .market (r :: rs)) with
              | .error e => .error e
              | .ok pm =>
                  match runIndexDetection m ε (colSeries .regulatory (r :: rs)) with
                  | .error e => .error e
                  | .ok pr =>
                      let alert :=
                        ([pc, pa, pm, pr].filterMap id).any
                          (fun p => decide ((1 / 2 : ℚ) ≤ p))
                      .ok (some ⟨date, pc, pa, pm, pr, alert⟩,
                           [⟨date, pc.getD 0, pa.getD 0, pm.getD 0,
                             pr.getD 0, alert⟩])

/-- send_alert (src/detect/bocd.py lines 156-161): a Slack message is sent
only when results.get(alert, False) is true and the webhook is configured.
The empty results dictionary of the empty-frame path is modelled as none,
for which the lookup defaults to false.  The returned Bool is whether a
message is sent. -/
def send_alert (webhook : Bool) (results : Option DetectResults) : Bool :=
  ((results.map (fun res => res.alert)).getD false) && webhook

/-- The series actually fed to index i by the pipeline detect_job
(load_daily_indices then detect_changepoints). -/
def fedSeries (i : IndexName) (store : List Row) : List ℚ :=
  colSeries i (loadDailyIndices store)

/-- Modelled from the spec's words (section 2): the full historical series
of an index, every stored row included, in chronological order.  Used only
to compare the spec's claim against the source's 180-row limit. -/
def specFullSeries (i : IndexName) (store : List Row) : List ℚ :=
  colSeries i (sortByDate store)

/-- A degenerate member of the pluggable predictive-model family whose
density is constant 1: used to instantiate the parametric theorems on
concrete inputs. -/
def constModel : PredictiveModel Unit :=
  ⟨(), fun _ _ => 1, fun _ _ => ()⟩

/-- A degenerate member of the pluggable predictive-model family whose
density is constant 0: it makes the total unnormalised mass vanish, used
to exercise the underflow path on a concrete input. -/
def zeroModel : PredictiveModel Unit :=
  ⟨(), fun _ _ => 0, fun _ _ => ()⟩

/-- A one-row frame whose capability reading is missing (NaN) while the
other three indices have data. -/
def c4rows : List Row :=
  [⟨1, none, some 1, some 1, some 1⟩]

/-- A store of 181 daily rows (dates 0 to 180), each with data for all four
indices: one row more than the LIMIT 180 of load_daily_indices. -/
def c5store : List Row :=
  (List.range 181).map (fun n => ⟨n, some 1, some 1, some 1, some 1⟩)

/-! ### Arithmetic helper lemmas -/

lemma sum_map_mul_const (l : List ℚ) (c : ℚ) :
    (l.map (fun w => w * c)).sum = l.sum * c := by
  induction l with
  | nil => simp
  | cons a l ih => simp [ih]; ring

lemma sum_nonneg_of_mem (l : List ℚ) (h : ∀ w ∈ l, 0 ≤ w) : 0 ≤ l.sum := by
  induction l with
  | nil => simp
  | cons a l ih =>
    simp only [List.sum_cons]
    have h1 := h a (by simp)
    have h2 := ih (fun w hw => h w (by simp [hw]))
    linarith

lemma zip_weights_nonneg (m : PredictiveModel σ) (x : ℚ)
    (hm : ∀ st y, 0 < m.density st y) :
    ∀ (l₁ : List ℚ) (l₂ : List σ), (∀ p ∈ l₁, 0 ≤ p) →
      ∀ w ∈ List.zipWith (fun p st => p * m.density st x) l₁ l₂, 0 ≤ w
  | [], _, _, w, hw => by simp at hw
  | _ :: _, [], _, w, hw => by simp at hw
  | a :: l₁, b :: l₂, hp, w, hw => by
    rw [List.zipWith_cons_cons] at hw
    rcases List.mem_cons.mp hw with rfl | hw
    · exact mul_nonneg (hp a (by simp)) (hm b x).le
    · exact zip_weights_nonneg m x hm l₁ l₂
        (fun p hp' => hp p (by simp [hp'])) w hw

lemma zip_weights_sum_pos (m : PredictiveModel σ) (x : ℚ)
    (hm : ∀ st y, 0 < m.density st y) :
    ∀ (l₁ : List ℚ) (l₂ : List σ), (∀ p ∈ l₁, 0 ≤ p) → 0 < l₁.sum →
      l₂.length = l₁.length →
      0 < (List.zipWith (fun p st => p * m.density st x) l₁ l₂).sum
  | [], _, _, hsum, _ => by simp at hsum
  | _ :: _, [], _, _, hlen => by simp at hlen
  | a :: l₁, b :: l₂, hp, hsum, hlen => by
    rw [List.zipWith_cons_cons, List.sum_cons]
    rcases lt_or_eq_of_le (hp a (by simp)) with ha | ha
    · have h1 : 0 < a * m.density b x := mul_pos ha (hm b x)
      have h2 : 0 ≤ (List.zipWith (fun p st => p * m.density st x) l₁ l₂).sum :=
        sum_nonneg_of_mem _ (zip_weights_nonneg m x hm l₁ l₂
          (fun p hp' => hp p (by simp [hp'])))
      linarith
    · have hsum' : 0 < l₁.sum := by
        rw [List.sum_cons, ← ha, zero_add] at hsum
        exact hsum
      have h2 := zip_weights_sum_pos m x hm l₁ l₂
        (fun p hp' => hp p (by simp [hp'])) hsum' (by simpa using hlen)
      have h1 : 0 ≤ a * m.density b x := mul_nonneg (hp a (by simp)) (hm b x).le
      linarith

/-! ### Engine invariants -/

/-- Well-formedness of an engine state: the posterior is a probability
distribution (nonnegative entries summing to one) with one
sufficient-statistics record per hypothesis. -/
def EngineState.wf (s : EngineState σ) : Prop :=
  (∀ p ∈ s.posterior, 0 ≤ p) ∧ s.posterior.sum = 1 ∧
    s.stats.length = s.posterior.length

lemma EngineState.init_wf (m : PredictiveModel σ) : (EngineState.init m).wf :=
  ⟨by intro p hp; simp [EngineState.init] at hp; simp [hp],
   by simp [EngineState.init],
   by simp [EngineState.init]⟩

lemma totalMass_eq (m : PredictiveModel σ) (hz x : ℚ) (s : EngineState σ) :
    totalMass m hz x s = (weightedDensities m x s).sum := by
  unfold totalMass unnormalizedPosterior changepointMass growthMasses
  rw [List.sum_cons, sum_map_mul_const, sum_map_mul_const]
  ring

lemma totalMass_pos (m : PredictiveModel σ) (hm : ∀ st y, 0 < m.density st y)
    (hz x : ℚ) (s : EngineState σ) (hs : s.wf) :
    0 < totalMass m hz x s := by
  rw [totalMass_eq]
  exact zip_weights_sum_pos m x hm s.posterior s.stats hs.1
    (by rw [hs.2.1]; norm_num) hs.2.2

lemma unnorm_nonneg (m : PredictiveModel σ) (hm : ∀ st y, 0 < m.density st y)
    (hz : ℚ) (hz0 : 0 ≤ hz) (hz1 : hz ≤ 1) (x : ℚ) (s : EngineState σ)
    (hs : s.wf) :
    ∀ w ∈ unnormalizedPosterior m hz x s, 0 ≤ w := by
  intro w hw
  have hweights : ∀ v ∈ weightedDensities m x s, 0 ≤ v := fun v hv =>
    zip_weights_nonneg m x hm s.posterior s.stats hs.1 v hv
  rcases List.mem_cons.mp hw with rfl | hw
  · apply sum_nonneg_of_mem
    intro u hu
    rcases List.mem_map.mp hu with ⟨v, hv, rfl⟩
    exact mul_nonneg (hweights v hv) hz0
  · rcases List.mem_map.mp hw with ⟨v, hv, rfl⟩
    exact mul_nonneg (hweights v hv) (by linarith)

lemma engineStep_ok (m : PredictiveModel σ) (hm : ∀ st y, 0 < m.density st y)
    (hz : ℚ) (x : ℚ) (s : EngineState σ) (hs : s.wf) :
    engineStep m hz 0 x s =
      .ok ⟨(unnormalizedPosterior m hz x s).map
             (fun w => w / totalMass m hz x s),
           m.prior :: s.stats.map (fun st => m.updateStats st x)⟩ := by
  unfold engineStep
  rw [if_neg (not_le.mpr (totalMass_pos m hm hz x s hs))]

lemma engineStep_next_wf (m : PredictiveModel σ)
    (hm : ∀ st y, 0 < m.density st y) (hz : ℚ) (hz0 : 0 ≤ hz) (hz1 : hz ≤ 1)
    (x : ℚ) (s : EngineState σ) (hs : s.wf) :
    EngineState.wf
      ⟨(unnormalizedPosterior m hz x s).map
         (fun w => w / totalMass m hz x s),
       m.prior :: s.stats.map (fun st => m.updateStats st x)⟩ := by
  have hpos := totalMass_pos m hm hz x s hs
  refine ⟨?_, ?_, ?_⟩
  · intro p hp
    rcases List.mem_map.mp hp with ⟨w, hw, rfl⟩
    exact div_nonneg (unnorm_nonneg m hm hz hz0 hz1 x s hs w hw) hpos.le
  · show ((unnormalizedPosterior m hz x s).map
      (fun w => w / totalMass m hz x s)).sum = 1
    simp only [div_eq_mul_inv]
    rw [sum_map_mul_const]
    rw [show (unnormalizedPosterior m hz x s).sum = totalMass m hz x s from rfl]
    exact mul_inv_cancel₀ (ne_of_gt hpos)
  · simp only [List.length_cons, List.length_map, unnormalizedPosterior,
      growthMasses, weightedDensities, List.length_zipWith, hs.2.2]
    omega

lemma headD_unit_interval (l : List ℚ) (hn : ∀ p ∈ l, 0 ≤ p)
    (hsum : l.sum = 1) : 0 ≤ l.headD 0 ∧ l.headD 0 ≤ 1 := by
  cases l with
  | nil => simp at hsum
  | cons a l =>
    have ha : 0 ≤ a := hn a (by simp)
    have hle : a ≤ (a :: l).sum := List.single_le_sum hn a (by simp)
    rw [hsum] at hle
    exact ⟨ha, by simpa using hle⟩

/-! ### Detector-level helper lemmas -/

lemma foldlM_single {α β : Type} (f : α → β → Except DetectError α)
    (a : α) (b : β) : List.foldlM f a [b] = f a b := by
  show (f a b >>= fun a' => List.foldlM f a' []) = f a b
  cases f a b <;> rfl

lemma update_eq_step (m : PredictiveModel σ) (ε x : ℚ) (d : BOCPDDetector σ) :
    BOCPDDetector.update m ε x d =
      match engineStep m (1 / d.hazard) ε x d.engine with
      | .error e => .error e
      | .ok eng =>
          .ok (eng.posterior.headD 0,
               ⟨d.hazard, eng, d.posterior_history ++ [eng.posterior]⟩) := by
  unfold BOCPDDetector.update BOCPDDetector.updateArr
  rw [foldlM_single]

lemma updateSeq_append (m : PredictiveModel σ) (ε : ℚ) (xs ys : List ℚ) :
    ∀ d : BOCPDDetector σ,
      BOCPDDetector.updateSeq m ε (xs ++ ys) d =
        match BOCPDDetector.updateSeq m ε xs d with
        | .error e => .error e
        | .ok (ps, d₁) =>
            match BOCPDDetector.updateSeq m ε ys d₁ with
            | .error e => .error e
            | .ok (qs, d₂) => .ok (ps ++ qs, d₂) := by
  induction xs with
  | nil =>
    intro d
    cases h : BOCPDDetector.updateSeq m ε ys d with
    | error e => simp [BOCPDDetector.updateSeq, h]
    | ok pr => cases pr with
      | mk qs d₂ => simp [BOCPDDetector.updateSeq, h]
  | cons x xs ih =>
    intro d
    rw [List.cons_append]
    simp only [BOCPDDetector.updateSeq]
    cases hu : BOCPDDetector.update m ε x d with
    | error e => rfl
    | ok pd =>
      cases pd with
      | mk p d₁ =>
        dsimp only
        rw [ih d₁]
        cases h1 : BOCPDDetector.updateSeq m ε xs d₁ with
        | error e => rfl
        | ok pr =>
          cases pr with
          | mk ps d₂ =>
            dsimp only
            cases h2 : BOCPDDetector.updateSeq m ε ys d₂ with
            | error e => rfl
            | ok qr =>
              cases qr with
              | mk qs d₃ => rfl

/-- C1: for every observation value, update feeds the value through the
Run-Length Posterior Engine for exactly one step; when that step does not
report a failure, update returns the normalised posterior's mass at run
length 0 as the changepoint probability and appends the full run-length
posterior (once) to the detector's history. -/
theorem update_advances_engine_one_step (m : PredictiveModel σ) (ε x : ℚ)
    (d : BOCPDDetector σ) (s' : EngineState σ)
    (hstep : engineStep m (1 / d.hazard) ε x d.engine = .ok s') :
    BOCPDDetector.update m ε x d =
      .ok (s'.posterior.headD 0,
           ⟨d.hazard, s', d.posterior_history ++ [s'.posterior]⟩) := by
  rw [update_eq_step, hstep]

/-- Witness for C1 at a concrete input: one update of a fresh detector
(hazard 250, constant-density model) advances the engine one step to the
posterior [1/250, 249/250], returns its mass at run length 0, and appends
that posterior to the history. -/
theorem update_advances_engine_one_step_witness :
    engineStep constModel (1 / (BOCPDDetector.init constModel 250).hazard) 0 1
        (BOCPDDetector.init constModel 250).engine =
      .ok ⟨[1 / 250, 249 / 250], [(), ()]⟩ ∧
    BOCPDDetector.update constModel 0 1 (BOCPDDetector.init constModel 250) =
      .ok (1 / 250,
           ⟨250, ⟨[1 / 250, 249 / 250], [(), ()]⟩, [[1 / 250, 249 / 250]]⟩) := by
  have hstep : engineStep constModel
      (1 / (BOCPDDetector.init constModel 250).hazard) 0 1
      (BOCPDDetector.init constModel 250).engine =
      .ok ⟨[1 / 250, 249 / 250], [(), ()]⟩ := by
    norm_num [engineStep, totalMass, unnormalizedPosterior, changepointMass,
      growthMasses, weightedDensities, EngineState.init, BOCPDDetector.init,
      constModel]
  exact ⟨hstep,
    update_advances_engine_one_step constModel 0 1
      (BOCPDDetector.init constModel 250) ⟨[1 / 250, 249 / 250], [(), ()]⟩
      hstep⟩

/-- C2: when the total unnormalised posterior mass at some step of an
observation sequence is at or below the underflow epsilon, the update at
that step reports the distinct numerical-underflow failure to the caller,
and the whole sequence run surfaces that failure instead of returning
probabilities. -/
theorem underflow_reported_to_caller (m : PredictiveModel σ) (ε : ℚ)
    (xs : List ℚ) (x : ℚ) (ys : List ℚ) (d d₁ : BOCPDDetector σ) (ps : List ℚ)
    (hpre : BOCPDDetector.updateSeq m ε xs d = .ok (ps, d₁))
    (hu : totalMass m (1 / d₁.hazard) x d₁.engine ≤ ε) :
    BOCPDDetector.updateSeq m ε (xs ++ x :: ys) d =
      .error .numericalUnderflow := by
  rw [updateSeq_append m ε xs (x :: ys) d, hpre]
  have hstep : engineStep m (1 / d₁.hazard) ε x d₁.engine =
      .error .numericalUnderflow := by
    unfold engineStep
    rw [if_pos hu]
  have hupd : BOCPDDetector.update m ε x d₁ = .error .numericalUnderflow := by
    rw [update_eq_step, hstep]
  simp [BOCPDDetector.updateSeq, hupd]

/-- Witness for C2 at a concrete input: with a model whose densities
vanish, the total unnormalised mass at the first step is 0, at or below
the epsilon 0, and the run reports the numerical-underflow failure. -/
theorem underflow_reported_to_caller_witness :
    (BOCPDDetector.updateSeq zeroModel 0 []
        (BOCPDDetector.init zeroModel 250) =
        .ok ([], BOCPDDetector.init zeroModel 250) ∧
      totalMass zeroModel (1 / (BOCPDDetector.init zeroModel 250).hazard) 1
          (BOCPDDetector.init zeroModel 250).engine ≤ 0) ∧
    BOCPDDetector.updateSeq zeroModel 0 ([] ++ 1 :: [])
        (BOCPDDetector.init zeroModel 250) =
      .error .numericalUnderflow := by
  have hu : totalMass zeroModel (1 / (BOCPDDetector.init zeroModel 250).hazard)
      1 (BOCPDDetector.init zeroModel 250).engine ≤ 0 := by
    norm_num [totalMass, unnormalizedPosterior, changepointMass, growthMasses,
      weightedDensities, EngineState.init, BOCPDDetector.init, zeroModel]
  exact ⟨⟨rfl, hu⟩,
    underflow_reported_to_caller zeroModel 0 [] 1 []
      (BOCPDDetector.init zeroModel 250) (BOCPDDetector.init zeroModel 250) []
      rfl hu⟩

lemma except_bind_ok {α β : Type} (a : α) (f : α → Except DetectError β) :
    (Except.ok a >>= f) = f a :=
  rfl

lemma update_hazard (m : PredictiveModel σ) (ε x : ℚ) (d : BOCPDDetector σ)
    (p : ℚ) (d' : BOCPDDetector σ)
    (h : BOCPDDetector.update m ε x d = .ok (p, d')) : d'.hazard = d.hazard := by
  rw [update_eq_step] at h
  cases hstep : engineStep m (1 / d.hazard) ε x d.engine with
  | error e => rw [hstep] at h; cases h
  | ok eng =>
    rw [hstep] at h
    simp only [Except.ok.injEq, Prod.mk.injEq] at h
    rw [← h.2]

lemma updateSeq_hazard (m : PredictiveModel σ) (ε : ℚ) :
    ∀ (xs : List ℚ) (d : BOCPDDetector σ) (ps : List ℚ)
      (d' : BOCPDDetector σ),
      BOCPDDetector.updateSeq m ε xs d = .ok (ps, d') →
      d'.hazard = d.hazard := by
  intro xs
  induction xs with
  | nil =>
    intro d ps d' h
    simp only [BOCPDDetector.updateSeq, Except.ok.injEq, Prod.mk.injEq] at h
    rw [← h.2]
  | cons x xs ih =>
    intro d ps d' h
    simp only [BOCPDDetector.updateSeq] at h
    cases hu : BOCPDDetector.update m ε x d with
    | error e => rw [hu] at h; cases h
    | ok pd =>
      rw [hu] at h
      cases pd with
      | mk p d₁ =>
        dsimp only at h
        cases h1 : BOCPDDetector.updateSeq m ε xs d₁ with
        | error e => rw [h1] at h; cases h
        | ok pr =>
          rw [h1] at h
          cases pr with
          | mk ps₂ d₂ =>
            dsimp only at h
            simp only [Except.ok.injEq, Prod.mk.injEq] at h
            rw [← h.2, ih d₁ ps₂ d₂ h1]
            exact update_hazard m ε x d p d₁ hu

lemma updateSeq_single (m : PredictiveModel σ) (ε x : ℚ) (d : BOCPDDetector σ) :
    BOCPDDetector.updateSeq m ε [x] d =
      match BOCPDDetector.update m ε x d with
      | .error e => .error e
      | .ok (p, d₁) => .ok ([p], d₁) := by
  simp only [BOCPDDetector.updateSeq]

/-- C3, counterexample to the claim as stated: the BOCPDDetector class of
src/detect/bocd.py defines exactly a constructor and update; it exposes no
reset() operation at all. -/
theorem detector_has_no_reset_method : ¬ ("reset" ∈ bocpdDetectorMethods) := by
  decide

/-- C3, amended: the detector class has no reset() method; the t=0 initial
state with the same prior and hazard configuration is obtained by
constructing a fresh detector (as detect_changepoints does each run), and
replaying the same sequence through such a fresh detector reproduces the
original probability sequence exactly. -/
theorem fresh_detector_replays_sequence (m : PredictiveModel σ) (ε lam : ℚ)
    (xs ps : List ℚ) (d' : BOCPDDetector σ)
    (h : BOCPDDetector.updateSeq m ε xs (BOCPDDetector.init m lam) =
      .ok (ps, d')) :
    (BOCPDDetector.init m d'.hazard).engine = EngineState.init m ∧
    (BOCPDDetector.init m d'.hazard).posterior_history = [] ∧
    d'.hazard = lam ∧
    BOCPDDetector.updateSeq m ε xs (BOCPDDetector.init m d'.hazard) =
      .ok (ps, d') := by
  have hz : d'.hazard = lam :=
    updateSeq_hazard m ε xs (BOCPDDetector.init m lam) ps d' h
  refine ⟨rfl, rfl, hz, ?_⟩
  rw [hz]
  exact h

/-- Witness for C3's amended statement at a concrete input: after a fresh
detector (hazard 250) processes the sequence [1], a detector freshly
constructed with the final detector's hazard replays the sequence to the
same probability sequence and final state. -/
theorem fresh_detector_replays_sequence_witness :
    BOCPDDetector.updateSeq constModel 0 [1]
        (BOCPDDetector.init constModel 250) =
      .ok ([1 / 250],
           ⟨250, ⟨[1 / 250, 249 / 250], [(), ()]⟩, [[1 / 250, 249 / 250]]⟩) ∧
    BOCPDDetector.updateSeq constModel 0 [1]
        (BOCPDDetector.init constModel
          ((⟨250, ⟨[1 / 250, 249 / 250], [(), ()]⟩,
             [[1 / 250, 249 / 250]]⟩ : BOCPDDetector Unit).hazard)) =
      .ok ([1 / 250],
           ⟨250, ⟨[1 / 250, 249 / 250], [(), ()]⟩, [[1 / 250, 249 / 250]]⟩) := by
  have hstep : engineStep constModel
      (1 / (BOCPDDetector.init constModel 250).hazard) 0 1
      (BOCPDDetector.init constModel 250).engine =
      .ok ⟨[1 / 250, 249 / 250], [(), ()]⟩ := by
    norm_num [engineStep, totalMass, unnormalizedPosterior, changepointMass,
      growthMasses, weightedDensities, EngineState.init, BOCPDDetector.init,
      constModel]
  have hrun : BOCPDDetector.updateSeq constModel 0 [1]
      (BOCPDDetector.init constModel 250) =
      .ok ([1 / 250],
           ⟨250, ⟨[1 / 250, 249 / 250], [(), ()]⟩, [[1 / 250, 249 / 250]]⟩) := by
    rw [updateSeq_single, update_eq_step, hstep]
    rfl
  exact ⟨hrun,
    (fresh_detector_replays_sequence constModel 0 250 [1] [1 / 250] _
      hrun).2.2.2⟩

/-- C7: the detection run is a pure deterministic computation: feeding the
same observation sequence through two freshly constructed detectors with
the same hazard configuration yields identical results (probability
sequences and final states). -/
theorem detector_runs_deterministic (m : PredictiveModel σ) (ε lam₁ lam₂ : ℚ)
    (xs : List ℚ) (hlam : lam₁ = lam₂) :
    BOCPDDetector.updateSeq m ε xs (BOCPDDetector.init m lam₁) =
      BOCPDDetector.updateSeq m ε xs (BOCPDDetector.init m lam₂) := by
  rw [hlam]

/-- Witness for C7 at a concrete input: two fresh detectors with hazard 250
produce the same run over the sequence [1, 2]. -/
theorem detector_runs_deterministic_witness :
    (250 : ℚ) = 250 ∧
    BOCPDDetector.updateSeq constModel 0 [1, 2]
        (BOCPDDetector.init constModel 250) =
      BOCPDDetector.updateSeq constModel 0 [1, 2]
        (BOCPDDetector.init constModel 250) :=
  ⟨rfl, detector_runs_deterministic constModel 0 250 250 [1, 2] rfl⟩

/-- C9: update on an array of n observations (n at least 1) advances the
engine once per observation (the fold over the whole array), yet appends
exactly one posterior to the history, the one current after the final
step, and returns that final posterior's mass at run length 0. -/
theorem array_update_appends_single_posterior (m : PredictiveModel σ)
    (ε : ℚ) (xs : List ℚ) (hn : xs ≠ []) (d : BOCPDDetector σ)
    (eng : EngineState σ)
    (hfold : xs.foldlM (fun s x => engineStep m (1 / d.hazard) ε x s)
      d.engine = .ok eng) :
    BOCPDDetector.updateArr m ε xs d =
      .ok (eng.posterior.headD 0,
           ⟨d.hazard, eng, d.posterior_history ++ [eng.posterior]⟩) ∧
    (d.posterior_history ++ [eng.posterior]).length =
      d.posterior_history.length + 1 := by
  constructor
  · unfold BOCPDDetector.updateArr
    rw [hfold]
  · simp

/-- Witness for C9 at a concrete input: the array [1, 1] advances a fresh
detector's engine two steps, while exactly one posterior (the final one)
is appended to the history and its mass at run length 0 is returned. -/
theorem array_update_appends_single_posterior_witness :
    (([1, 1] : List ℚ) ≠ [] ∧
      List.foldlM (fun s x => engineStep constModel
          (1 / (BOCPDDetector.init constModel 250).hazard) 0 x s)
        (BOCPDDetector.init constModel 250).engine [1, 1] =
        .ok ⟨[1 / 250, 249 / 62500, 62001 / 62500], [(), (), ()]⟩) ∧
    BOCPDDetector.updateArr constModel 0 [1, 1]
        (BOCPDDetector.init constModel 250) =
      .ok (1 / 250,
           ⟨250, ⟨[1 / 250, 249 / 62500, 62001 / 62500], [(), (), ()]⟩,
            [[1 / 250, 249 / 62500, 62001 / 62500]]⟩) := by
  have hstep1 : engineStep constModel
      (1 / (BOCPDDetector.init constModel 250).hazard) 0 1
      (BOCPDDetector.init constModel 250).engine =
      .ok ⟨[1 / 250, 249 / 250], [(), ()]⟩ := by
    norm_num [engineStep, totalMass, unnormalizedPosterior, changepointMass,
      growthMasses, weightedDensities, EngineState.init, BOCPDDetector.init,
      constModel]
  have hstep2 : engineStep constModel
      (1 / (BOCPDDetector.init constModel 250).hazard) 0 1
      (⟨[1 / 250, 249 / 250], [(), ()]⟩ : EngineState Unit) =
      .ok ⟨[1 / 250, 249 / 62500, 62001 / 62500], [(), (), ()]⟩ := by
    norm_num [engineStep, totalMass, unnormalizedPosterior, changepointMass,
      growthMasses, weightedDensities, BOCPDDetector.init, constModel]
  have hfold : List.foldlM (fun s x => engineStep constModel
      (1 / (BOCPDDetector.init constModel 250).hazard) 0 x s)
      (BOCPDDetector.init constModel 250).engine [1, 1] =
      .ok ⟨[1 / 250, 249 / 62500, 62001 / 62500], [(), (), ()]⟩ := by
    simp only [List.foldlM]
    rw [hstep1, except_bind_ok, hstep2, except_bind_ok]
    rfl
  refine ⟨⟨by simp, hfold⟩, ?_⟩
  exact (array_update_appends_single_posterior constModel 0 [1, 1] (by simp)
    (BOCPDDetector.init constModel 250)
    ⟨[1 / 250, 249 / 62500, 62001 / 62500], [(), (), ()]⟩ hfold).1

/-! ### Concrete evaluation helpers for the orchestrator -/

lemma runIndexDetection_nil (m : PredictiveModel σ) (ε : ℚ) :
    runIndexDetection m ε ([] : List ℚ) = .ok none := by
  simp [runIndexDetection]

lemma run1_eval : BOCPDDetector.updateSeq constModel 0 [1]
    (BOCPDDetector.init constModel 250) =
    .ok ([1 / 250],
         ⟨250, ⟨[1 / 250, 249 / 250], [(), ()]⟩, [[1 / 250, 249 / 250]]⟩) := by
  have hstep : engineStep constModel
      (1 / (BOCPDDetector.init constModel 250).hazard) 0 1
      (BOCPDDetector.init constModel 250).engine =
      .ok ⟨[1 / 250, 249 / 250], [(), ()]⟩ := by
    norm_num [engineStep, totalMass, unnormalizedPosterior, changepointMass,
      growthMasses, weightedDensities, EngineState.init, BOCPDDetector.init,
      constModel]
  rw [updateSeq_single, update_eq_step, hstep]
  rfl

lemma runIndexDetection_one : runIndexDetection constModel 0 [1] =
    .ok (some (1 / 250)) := by
  unfold runIndexDetection
  rw [if_neg (by simp), run1_eval]
  rfl

/-- A one-row store with data for all four indices. -/
def onerow : List Row :=
  [⟨1, some 1, some 1, some 1, some 1⟩]

lemma detect_onerow_eval : detect_changepoints constModel 0 onerow =
    .ok (some ⟨1, some (1 / 250), some (1 / 250), some (1 / 250),
          some (1 / 250), false⟩,
         [⟨1, 1 / 250, 1 / 250, 1 / 250, 1 / 250, false⟩]) := by
  simp only [onerow, detect_changepoints]
  rw [show colSeries .capability
        [(⟨1, some 1, some 1, some 1, some 1⟩ : Row)] = [(1 : ℚ)] from rfl]
  rw [show colSeries .attention
        [(⟨1, some 1, some 1, some 1, some 1⟩ : Row)] = [(1 : ℚ)] from rfl]
  rw [show colSeries .market
        [(⟨1, some 1, some 1, some 1, some 1⟩ : Row)] = [(1 : ℚ)] from rfl]
  rw [show colSeries .regulatory
        [(⟨1, some 1, some 1, some 1, some 1⟩ : Row)] = [(1 : ℚ)] from rfl]
  rw [runIndexDetection_one]
  dsimp only
  norm_num [List.any, List.filterMap]

lemma detect_c4_eval : detect_changepoints constModel 0 c4rows =
    .ok (some ⟨1, none, some (1 / 250), some (1 / 250), some (1 / 250),
          false⟩,
         [⟨1, 0, 1 / 250, 1 / 250, 1 / 250, false⟩]) := by
  simp only [c4rows, detect_changepoints]
  rw [show colSeries .capability
        [(⟨1, none, some 1, some 1, some 1⟩ : Row)] = ([] : List ℚ) from rfl]
  rw [show colSeries .attention
        [(⟨1, none, some 1, some 1, some 1⟩ : Row)] = [(1 : ℚ)] from rfl]
  rw [show colSeries .market
        [(⟨1, none, some 1, some 1, some 1⟩ : Row)] = [(1 : ℚ)] from rfl]
  rw [show colSeries .regulatory
        [(⟨1, none, some 1, some 1, some 1⟩ : Row)] = [(1 : ℚ)] from rfl]
  rw [runIndexDetection_nil, runIndexDetection_one]
  dsimp only
  norm_num [List.any, List.filterMap]

/-- C10: an empty input frame makes detect_changepoints return the empty
dictionary and insert nothing into the alerts table, and the downstream
alert sender sends no message for that result, whatever the webhook
configuration. -/
theorem empty_frame_no_insert_no_alert (m : PredictiveModel σ) (ε : ℚ)
    (w : Bool) :
    detect_changepoints m ε ([] : List Row) = .ok (none, []) ∧
    send_alert w none = false := by
  exact ⟨rfl, by simp [send_alert]⟩

/-! ### Inversion of a successful detect_changepoints run -/

lemma detect_ok_inversion (m : PredictiveModel σ) (ε : ℚ) (r : Row)
    (rs : List Row) (res : DetectResults) (recs : List AlertRecord)
    (hdet : detect_changepoints m ε (r :: rs) = .ok (some res, recs)) :
    runIndexDetection m ε (colSeries .capability (r :: rs)) =
      .ok res.capability_prob ∧
    runIndexDetection m ε (colSeries .attention (r :: rs)) =
      .ok res.attention_prob ∧
    runIndexDetection m ε (colSeries .market (r :: rs)) =
      .ok res.market_prob ∧
    runIndexDetection m ε (colSeries .regulatory (r :: rs)) =
      .ok res.regulatory_prob ∧
    res.date = ((r :: rs).getLastD r).date ∧
    res.alert = (([res.capability_prob, res.attention_prob, res.market_prob,
      res.regulatory_prob].filterMap id).any
        (fun p => decide ((1 / 2 : ℚ) ≤ p))) ∧
    recs = [⟨res.date, res.capability_prob.getD 0, res.attention_prob.getD 0,
      res.market_prob.getD 0, res.regulatory_prob.getD 0, res.alert⟩] := by
  simp only [detect_changepoints] at hdet
  cases hcap : runIndexDetection m ε (colSeries .capability (r :: rs)) with
  | error e => rw [hcap] at hdet; cases hdet
  | ok pc =>
    rw [hcap] at hdet
    dsimp only at hdet
    cases hatt : runIndexDetection m ε (colSeries .attention (r :: rs)) with
    | error e => rw [hatt] at hdet; cases hdet
    | ok pa =>
      rw [hatt] at hdet
      dsimp only at hdet
      cases hmar : runIndexDetection m ε (colSeries .market (r :: rs)) with
      | error e => rw [hmar] at hdet; cases hdet
      | ok pm =>
        rw [hmar] at hdet
        dsimp only at hdet
        cases hreg : runIndexDetection m ε
            (colSeries .regulatory (r :: rs)) with
        | error e => rw [hreg] at hdet; cases hdet
        | ok pr =>
          rw [hreg] at hdet
          dsimp only at hdet
          simp only [Except.ok.injEq, Prod.mk.injEq,
            Option.some.injEq] at hdet
          obtain ⟨hres, hrecs⟩ := hdet
          subst hres
          subst hrecs
          exact ⟨rfl, rfl, rfl, rfl, rfl, rfl, rfl⟩

/-- C6: for a successful detection run where all four indices were
computed, the persisted record consists of the date, the four computed
probabilities, and the alert flag, and the alert flag is exactly the
disjunction over the four indices of the condition probability at least
1/2. -/
theorem alert_is_threshold_disjunction (m : PredictiveModel σ) (ε : ℚ)
    (rows : List Row) (res : DetectResults) (recs : List AlertRecord)
    (pc pa pm pr : ℚ)
    (hdet : detect_changepoints m ε rows = .ok (some res, recs))
    (hc : res.capability_prob = some pc)
    (ha : res.attention_prob = some pa)
    (hm2 : res.market_prob = some pm)
    (hr2 : res.regulatory_prob = some pr) :
    recs = [⟨res.date, pc, pa, pm, pr, res.alert⟩] ∧
    (res.alert = true ↔
      ((1 / 2 : ℚ) ≤ pc ∨ (1 / 2 : ℚ) ≤ pa ∨ (1 / 2 : ℚ) ≤ pm ∨
        (1 / 2 : ℚ) ≤ pr)) := by
  cases rows with
  | nil => simp [detect_changepoints] at hdet
  | cons r rs =>
    obtain ⟨h1, h2, h3, h4, hdate, halert, hrecs⟩ :=
      detect_ok_inversion m ε r rs res recs hdet
    constructor
    · rw [hrecs, hc, ha, hm2, hr2]
      simp [Option.getD]
    · rw [hc, ha, hm2, hr2] at halert
      rw [halert]
      simp [List.any, List.filterMap, Bool.or_eq_true, decide_eq_true_eq,
        or_assoc]

/-- Witness for C6 at a concrete input: a one-row frame where all four
indices carry data; all four probabilities compute to 1/250, the record is
the date with the four probabilities and the flag, and the flag is false
since no probability reaches 1/2. -/
theorem alert_is_threshold_disjunction_witness :
    [(⟨1, 1 / 250, 1 / 250, 1 / 250, 1 / 250, false⟩ : AlertRecord)] =
      [⟨(⟨1, some (1 / 250), some (1 / 250), some (1 / 250),
          some (1 / 250), false⟩ : DetectResults).date,
        1 / 250, 1 / 250, 1 / 250, 1 / 250,
        (⟨1, some (1 / 250), some (1 / 250), some (1 / 250),
          some (1 / 250), false⟩ : DetectResults).alert⟩] ∧
    ((⟨1, some (1 / 250), some (1 / 250), some (1 / 250), some (1 / 250),
        false⟩ : DetectResults).alert = true ↔
      ((1 / 2 : ℚ) ≤ 1 / 250 ∨ (1 / 2 : ℚ) ≤ 1 / 250 ∨
        (1 / 2 : ℚ) ≤ 1 / 250 ∨ (1 / 2 : ℚ) ≤ 1 / 250)) :=
  alert_is_threshold_disjunction constModel 0 onerow _ _
    (1 / 250) (1 / 250) (1 / 250) (1 / 250)
    detect_onerow_eval rfl rfl rfl rfl

/-- C4, counterexample to the claim as stated: a one-row frame whose
capability reading is missing makes detection skip the capability index
(its NaN-filtered series is empty, and the results dictionary carries no
capability probability), yet the orchestrator still inserts an alerts
record carrying 0 as the capability probability, the silent zero-fill of
dict.get(key, 0.0) in src/detect/bocd.py lines 144-147. -/
theorem skipped_index_zero_filled_record :
    colSeries .capability c4rows = [] ∧
    detect_changepoints constModel 0 c4rows =
      .ok (some ⟨1, none, some (1 / 250), some (1 / 250), some (1 / 250),
            false⟩,
           [⟨1, 0, 1 / 250, 1 / 250, 1 / 250, false⟩]) :=
  ⟨rfl, detect_c4_eval⟩

/-- C4, amended: a numerical failure in any index's detection propagates
out of detect_changepoints before any insert happens (the op returns the
error and produces no record), but an index skipped for lack of data is
silently zero-filled: the single inserted record carries 0 for that index
even though no probability was computed for it. -/
theorem zero_fill_on_skipped_index (m : PredictiveModel σ) (ε : ℚ)
    (rows : List Row) (i : IndexName) (res : DetectResults)
    (recs : List AlertRecord)
    (hdet : detect_changepoints m ε rows = .ok (some res, recs))
    (hskip : colSeries i rows = []) :
    res.prob i = none ∧ recs.map (fun rec => rec.prob i) = [0] := by
  cases rows with
  | nil => simp [detect_changepoints] at hdet
  | cons r rs =>
    obtain ⟨h1, h2, h3, h4, hdate, halert, hrecs⟩ :=
      detect_ok_inversion m ε r rs res recs hdet
    cases i with
    | capability =>
      rw [hskip, runIndexDetection_nil] at h1
      have hnone : res.capability_prob = none :=
        (Except.ok.injEq _ _ ▸ h1).symm
      exact ⟨hnone, by rw [hrecs]; simp [AlertRecord.prob, hnone]⟩
    | attention =>
      rw [hskip, runIndexDetection_nil] at h2
      have hnone : res.attention_prob = none :=
        (Except.ok.injEq _ _ ▸ h2).symm
      exact ⟨hnone, by rw [hrecs]; simp [AlertRecord.prob, hnone]⟩
    | market =>
      rw [hskip, runIndexDetection_nil] at h3
      have hnone : res.market_prob = none :=
        (Except.ok.injEq _ _ ▸ h3).symm
      exact ⟨hnone, by rw [hrecs]; simp [AlertRecord.prob, hnone]⟩
    | regulatory =>
      rw [hskip, runIndexDetection_nil] at h4
      have hnone : res.regulatory_prob = none :=
        (Except.ok.injEq _ _ ▸ h4).symm
      exact ⟨hnone, by rw [hrecs]; simp [AlertRecord.prob, hnone]⟩

/-- Witness for C4's amended statement at a concrete input: on the
one-row frame with a missing capability reading, the results dictionary
has no capability probability while the inserted record zero-fills it. -/
theorem zero_fill_on_skipped_index_witness :
    DetectResults.prob
        ⟨1, none, some (1 / 250), some (1 / 250), some (1 / 250), false⟩
        .capability = none ∧
    [(⟨1, 0, 1 / 250, 1 / 250, 1 / 250, false⟩ : AlertRecord)].map
        (fun rec => rec.prob .capability) = [0] :=
  zero_fill_on_skipped_index constModel 0 c4rows .capability _ _
    detect_c4_eval rfl

set_option maxRecDepth 100000 in
/-- C5, counterexample to the claim as stated: on a store of 181 daily
rows the pipeline does not feed the full historical series; the query of
load_daily_indices keeps only the first (oldest) 180 rows (ORDER BY date
ASC LIMIT 180), so the series fed to the capability detector has 180
values while the full history has 181. -/
theorem limited_load_not_full_history :
    (specFullSeries .capability c5store).length = 181 ∧
    (fedSeries .capability c5store).length = 180 ∧
    fedSeries .capability c5store ≠ specFullSeries .capability c5store := by
  refine ⟨by decide, by decide, ?_⟩
  intro h
  have hl := congrArg List.length h
  rw [(show (fedSeries .capability c5store).length = 180 by decide),
      (show (specFullSeries .capability c5store).length = 181 by decide)]
    at hl
  exact absurd hl (by decide)

/-- C5, amended: the orchestrator feeds each index the NaN-filtered values
of the oldest at-most-180 stored rows (the rows returned by
load_daily_indices, sorted ascending by date), in chronological order
through a fresh detector, one update per value, and the probability it
collects for the index is the changepoint probability returned at the
final step of that fed series. -/
theorem orchestrator_feeds_loaded_series (m : PredictiveModel σ) (ε : ℚ)
    (store : List Row) (i : IndexName) (res : DetectResults)
    (recs : List AlertRecord) (ps : List ℚ) (d' : BOCPDDetector σ)
    (hdet : detect_changepoints m ε (loadDailyIndices store) =
      .ok (some res, recs))
    (hrun : BOCPDDetector.updateSeq m ε (fedSeries i store)
      (BOCPDDetector.init m 250) = .ok (ps, d'))
    (hne : fedSeries i store ≠ []) :
    res.prob i = some (ps.getLastD 0) ∧
    fedSeries i store = colSeries i ((sortByDate store).take 180) := by
  refine ⟨?_, rfl⟩
  cases hload : loadDailyIndices store with
  | nil =>
    exfalso
    apply hne
    unfold fedSeries
    rw [hload]
    rfl
  | cons r rs =>
    rw [hload] at hdet
    obtain ⟨h1, h2, h3, h4, _, _, _⟩ :=
      detect_ok_inversion m ε r rs res recs hdet
    have hfed : fedSeries i store = colSeries i (r :: rs) := by
      unfold fedSeries
      rw [hload]
    have hidx : runIndexDetection m ε (fedSeries i store) =
        .ok (res.prob i) := by
      rw [hfed]
      cases i with
      | capability => exact h1
      | attention => exact h2
      | market => exact h3
      | regulatory => exact h4
    unfold runIndexDetection at hidx
    rw [if_neg hne, hrun] at hidx
    dsimp only at hidx
    simp only [Except.ok.injEq] at hidx
    exact hidx.symm

/-- Witness for C5's amended statement at a concrete input: on a one-row
store, the fed capability series is the filtered column of the loaded
rows and the collected probability is the final (only) step's returned
probability 1/250. -/
theorem orchestrator_feeds_loaded_series_witness :
    DetectResults.prob
        ⟨1, some (1 / 250), some (1 / 250), some (1 / 250), some (1 / 250),
         false⟩ .capability = some (([1 / 250] : List ℚ).getLastD 0) ∧
    fedSeries .capability onerow =
      colSeries .capability ((sortByDate onerow).take 180) :=
  orchestrator_feeds_loaded_series constModel 0 onerow .capability _ _
    [1 / 250] _ detect_onerow_eval run1_eval (by decide)

/-! ### The normalisation invariant through a whole run (for C8) -/

lemma update_ok_unit (m : PredictiveModel σ) (hm : ∀ st y, 0 < m.density st y)
    (x : ℚ) (d : BOCPDDetector σ) (hd : d.engine.wf) (hlam : 1 ≤ d.hazard) :
    ∃ p d', BOCPDDetector.update m 0 x d = .ok (p, d') ∧ d'.engine.wf ∧
      d'.hazard = d.hazard ∧ 0 ≤ p ∧ p ≤ 1 := by
  have hlam0 : 0 < d.hazard := lt_of_lt_of_le one_pos hlam
  have hz0 : (0 : ℚ) ≤ 1 / d.hazard := by positivity
  have hz1 : 1 / d.hazard ≤ 1 := by
    rw [div_le_one hlam0]
    exact hlam
  have hstep := engineStep_ok m hm (1 / d.hazard) x d.engine hd
  have hwf := engineStep_next_wf m hm (1 / d.hazard) hz0 hz1 x d.engine hd
  have hupd : BOCPDDetector.update m 0 x d =
      .ok ((⟨(unnormalizedPosterior m (1 / d.hazard) x d.engine).map
              (fun w => w / totalMass m (1 / d.hazard) x d.engine),
            m.prior :: d.engine.stats.map (fun st => m.updateStats st x)⟩ :
            EngineState σ).posterior.headD 0,
           ⟨d.hazard,
            ⟨(unnormalizedPosterior m (1 / d.hazard) x d.engine).map
               (fun w => w / totalMass m (1 / d.hazard) x d.engine),
             m.prior :: d.engine.stats.map (fun st => m.updateStats st x)⟩,
            d.posterior_history ++
              [(⟨(unnormalizedPosterior m (1 / d.hazard) x d.engine).map
                   (fun w => w / totalMass m (1 / d.hazard) x d.engine),
                 m.prior :: d.engine.stats.map (fun st => m.updateStats st x)⟩ :
                 EngineState σ).posterior]⟩) := by
    rw [update_eq_step, hstep]
  have hbd := headD_unit_interval _ hwf.1 hwf.2.1
  exact ⟨_, _, hupd, hwf, rfl, hbd.1, hbd.2⟩

lemma updateSeq_ok_unit (m : PredictiveModel σ)
    (hm : ∀ st y, 0 < m.density st y) :
    ∀ (xs : List ℚ) (d : BOCPDDetector σ), d.engine.wf → 1 ≤ d.hazard →
      ∃ ps d', BOCPDDetector.updateSeq m 0 xs d = .ok (ps, d') ∧
        (∀ p ∈ ps, 0 ≤ p ∧ p ≤ 1) ∧ d'.engine.wf ∧ d'.hazard = d.hazard := by
  intro xs
  induction xs with
  | nil =>
    intro d hd hl
    exact ⟨[], d, rfl, by simp, hd, rfl⟩
  | cons x xs ih =>
    intro d hd hl
    obtain ⟨p, d₁, hupd, hwf1, hhz1, hp0, hp1⟩ := update_ok_unit m hm x d hd hl
    obtain ⟨ps, d₂, hseq, hps, hwf2, hhz2⟩ := ih d₁ hwf1 (by rw [hhz1]; exact hl)
    refine ⟨p :: ps, d₂, ?_, ?_, hwf2, by rw [hhz2, hhz1]⟩
    · simp only [BOCPDDetector.updateSeq]
      rw [hupd]
      dsimp only
      rw [hseq]
    · intro q hq
      rcases List.mem_cons.mp hq with rfl | hq
      · exact ⟨hp0, hp1⟩
      · exact hps q hq

/-- C8: in the exact-arithmetic semantics (underflow epsilon 0), for every
observation sequence, including constant ones, and every predictive model
with strictly positive densities (as the default Student-t family has) and
hazard configuration at least 1, a fresh detector processes the whole
sequence without reporting any numerical failure, and every changepoint
probability returned by update lies in the closed interval [0, 1] (it is
an exact rational, hence finite). -/
theorem probabilities_in_unit_interval (m : PredictiveModel σ)
    (hm : ∀ st y, 0 < m.density st y) (lam : ℚ) (hlam : 1 ≤ lam)
    (xs : List ℚ) :
    ∃ ps d', BOCPDDetector.updateSeq m 0 xs (BOCPDDetector.init m lam) =
      .ok (ps, d') ∧ ∀ p ∈ ps, 0 ≤ p ∧ p ≤ 1 := by
  obtain ⟨ps, d', hseq, hps, _, _⟩ := updateSeq_ok_unit m hm xs
    (BOCPDDetector.init m lam) (EngineState.init_wf m) hlam
  exact ⟨ps, d', hseq, hps⟩

/-- Witness for C8 at a concrete input: the degenerate constant sequence
of 50 copies of the value 1 raises no failure and yields probabilities in
[0, 1], for the constant-density member of the pluggable model family with
the default hazard 250. -/
theorem probabilities_in_unit_interval_witness :
    ∃ ps d', BOCPDDetector.updateSeq constModel 0 (List.replicate 50 1)
      (BOCPDDetector.init constModel 250) =
      .ok (ps, d') ∧ ∀ p ∈ ps, 0 ≤ p ∧ p ≤ 1 :=
  probabilities_in_unit_interval constModel
    (fun st y => by norm_num [constModel]) 250 (by norm_num)
    (List.replicate 50 1)
